import Mathlib

set_option linter.unusedVariables false

/-!
# Verification of the Caliptra ECC-384 driver (`drivers/src/ecc384.rs`)

This file gives a shallow embedding of the ECC-384 driver and proves the
specification claims about it.  The driver orchestrates three external
hardware blocks that are not part of the sources under verification: the
ECC engine registers (`caliptra_registers::ecc`), the PKA math accelerator
(`pka_hal`), the key-vault access layer (`KvAccess`), the TRNG, and the
fault-resistant equality assertion (`caliptra_cfi_lib`).  Those are modelled
from the specification: the PKA's modular multiply/add/inverse are exact
modular arithmetic, its elliptic-curve scalar-multiply and point-add are
deterministic oracle functions (a `PkaSem` parameter), and the fallible
hardware steps (key-vault transfers, TRNG) are oracle outcomes carried by an
`HwRand` environment.  Every driver function additionally produces a trace of
hardware-visible state-changing events, so that claims about "no hardware
touched" and "zeroization on exit" can be stated.  Pure status-register
polling (`wait::until`) reads hardware but changes no state and produces no
event.
-/

/-- Big-endian 32-bit limb list to natural number (most significant limb first).
This is the byte/limb order used by `Array4x12` values exchanged with callers. -/
def limbsBEtoNat : List Nat → Nat
  | [] => 0
  | x :: xs => x * 2 ^ (32 * xs.length) + limbsBEtoNat xs

/-- Little-endian 32-bit limb list to natural number (least significant limb
first).  This is the limb order of the curve constants in the source and of
all values exchanged with the PKA accelerator. -/
def limbsLEtoNat : List Nat → Nat
  | [] => 0
  | x :: xs => x + 2 ^ 32 * limbsLEtoNat xs

/-- A natural number as its 12 big-endian 32-bit limbs (how a PKA result,
read little-endian and then reversed by the driver, appears to the caller). -/
def natToLimbsBE (n : Nat) : List Nat :=
  (List.range 12).map (fun i => n / 2 ^ (32 * (11 - i)) % 2 ^ 32)

/-- Fuelled extended Euclid, returning Bezout coefficients `(x, y)` with
`a*x + b*y = gcd a b` when the fuel suffices.  Structural recursion on the
fuel keeps the definition kernel-computable. -/
def egcd : Nat → Nat → Nat → Int × Int
  | 0, _, _ => (0, 0)
  | fuel + 1, a, b =>
    if a = 0 then (0, 1)
    else
      let p := egcd fuel (b % a) a
      (p.2 - ((b / a : Nat) : Int) * p.1, p.1)

/-- Modelled from the spec: the PKA accelerator's "ModInv" operation
(modular inverse of `a` modulo `m`), computed by extended Euclid.  Fuel 1000
exceeds the worst-case number of Euclid steps for 384-bit operands. -/
def modInv (m a : Nat) : Nat := ((egcd 1000 (a % m) m).1 % (m : Int)).toNat

/-- Modelled from the spec: the PKA accelerator's "ModMult" operation. -/
def mulmod (m a b : Nat) : Nat := a * b % m

/-- Modelled from the spec: the PKA accelerator's "ModAdd" operation. -/
def addmod (m a b : Nat) : Nat := (a + b) % m

/-- A 32-bit word as its 4 big-endian bytes (Rust `u32::to_be_bytes`). -/
def wordToBytesBE (w : Nat) : List Nat :=
  [w / 2 ^ 24 % 256, w / 2 ^ 16 % 256, w / 2 ^ 8 % 256, w % 256]

/-- A big-endian limb list as its big-endian byte string (the
`From<&Array4x12> for [u8; 48]` conversion used by `to_der`). -/
def limbsToBytesBE : List Nat → List Nat
  | [] => []
  | w :: ws => wordToBytesBE w ++ limbsToBytesBE ws

/-- Inverse direction: group a big-endian byte string back into 32-bit limbs. -/
def bytesToLimbsBE : List Nat → List Nat
  | b0 :: b1 :: b2 :: b3 :: rest =>
    (((b0 * 256 + b1) * 256 + b2) * 256 + b3) :: bytesToLimbsBE rest
  | _ => []

namespace Ecc384

/-- A scalar / coordinate / digest: 12 big-endian 32-bit limbs (`Array4x12`). -/
abbrev Scalar := List Nat

/-- The `Ecc384Result` from the source (discriminants elided). -/
inductive Ecc384Result where
  | Success
  | SigVerifyFailed
deriving DecidableEq

/-- The `CaliptraError` variants reachable from the ECC-384 driver, plus
`cfiAssertEqFailed`, which models (from the spec) the failure of the
fault-resistant equality assertion `cfi_assert_eq_12_words`. -/
inductive CaliptraError where
  | DRIVER_ECC384_KEYGEN_BAD_USAGE
  | DRIVER_ECC384_SCALAR_RANGE_CHECK_FAILED
  | DRIVER_ECC384_READ_SEED_KV_READ
  | DRIVER_ECC384_READ_SEED_KV_WRITE
  | DRIVER_ECC384_READ_SEED_KV_UNKNOWN
  | DRIVER_ECC384_READ_DATA_KV_READ
  | DRIVER_ECC384_READ_DATA_KV_WRITE
  | DRIVER_ECC384_READ_DATA_KV_UNKNOWN
  | DRIVER_ECC384_READ_PRIV_KEY_KV_READ
  | DRIVER_ECC384_READ_PRIV_KEY_KV_WRITE
  | DRIVER_ECC384_READ_PRIV_KEY_KV_UNKNOWN
  | DRIVER_ECC384_WRITE_PRIV_KEY_KV_READ
  | DRIVER_ECC384_WRITE_PRIV_KEY_KV_WRITE
  | DRIVER_ECC384_WRITE_PRIV_KEY_KV_UNKNOWN
  | DRIVER_ECC384_KEYGEN_PAIRWISE_CONSISTENCY_FAILURE
  | cfiAssertEqFailed
  | trngFault
deriving DecidableEq

/-- The `KvAccessErr` from the key-vault access layer. -/
inductive KvAccessErr where
  | KeyRead
  | KeyWrite
  | Generic
deriving DecidableEq

/-- The `Ecc384KeyAccessErr::into_read_seed_err` (source lines 1110-1116). -/
def KvAccessErr.into_read_seed_err : KvAccessErr → CaliptraError
  | .KeyRead => .DRIVER_ECC384_READ_SEED_KV_READ
  | .KeyWrite => .DRIVER_ECC384_READ_SEED_KV_WRITE
  | .Generic => .DRIVER_ECC384_READ_SEED_KV_UNKNOWN

/-- The `Ecc384KeyAccessErr::into_read_data_err` (source lines 1119-1125). -/
def KvAccessErr.into_read_data_err : KvAccessErr → CaliptraError
  | .KeyRead => .DRIVER_ECC384_READ_DATA_KV_READ
  | .KeyWrite => .DRIVER_ECC384_READ_DATA_KV_WRITE
  | .Generic => .DRIVER_ECC384_READ_DATA_KV_UNKNOWN

/-- The `Ecc384KeyAccessErr::into_read_priv_key_err` (source lines 1128-1134). -/
def KvAccessErr.into_read_priv_key_err : KvAccessErr → CaliptraError
  | .KeyRead => .DRIVER_ECC384_READ_PRIV_KEY_KV_READ
  | .KeyWrite => .DRIVER_ECC384_READ_PRIV_KEY_KV_WRITE
  | .Generic => .DRIVER_ECC384_READ_PRIV_KEY_KV_UNKNOWN

/-- The `Ecc384KeyAccessErr::into_write_priv_key_err` (source lines 1137-1143). -/
def KvAccessErr.into_write_priv_key_err : KvAccessErr → CaliptraError
  | .KeyRead => .DRIVER_ECC384_WRITE_PRIV_KEY_KV_READ
  | .KeyWrite => .DRIVER_ECC384_WRITE_PRIV_KEY_KV_WRITE
  | .Generic => .DRIVER_ECC384_WRITE_PRIV_KEY_KV_UNKNOWN

/-- Key-vault slot usage capabilities (only the bit the driver inspects). -/
structure KeyUsage where
  ecc_private_key : Bool
deriving DecidableEq

/-- The `KeyWriteArgs`: destination vault slot id plus its usage capabilities. -/
structure KeyWriteArgs where
  id : Nat
  usage : KeyUsage
deriving DecidableEq

/-- The `KeyReadArgs`: source vault slot id. -/
structure KeyReadArgs where
  id : Nat
deriving DecidableEq

/-- The `Ecc384Seed`: an explicit value or a key-vault reference. -/
inductive Seed where
  | arr (v : Scalar)
  | key (k : KeyReadArgs)
deriving DecidableEq

/-- The `Ecc384PrivKeyIn`: an explicit value or a key-vault reference. -/
inductive PrivKeyIn where
  | arr (v : Scalar)
  | key (k : KeyReadArgs)
deriving DecidableEq

/-- The `Ecc384PrivKeyOut`: a caller-owned output buffer or a key-vault slot. -/
inductive PrivKeyOut where
  | arr
  | key (k : KeyWriteArgs)
deriving DecidableEq

/-- The `Ecc384PubKey`: affine coordinates, big-endian limbs. -/
structure PubKey where
  x : Scalar
  y : Scalar
deriving DecidableEq

/-- The `Ecc384Signature`. -/
structure Sig where
  r : Scalar
  s : Scalar
deriving DecidableEq

/-- A projective point as held in the PKA scratchpad. -/
structure Pt where
  x : Nat
  y : Nat
  z : Nat

/-- PKA commands triggered by the driver (one event per `ctrl` trigger). -/
inductive PkaCmd where
  | modMult
  | modAdd
  | modInv
  | scalarMult
  | pointAdd
deriving DecidableEq

/-- Hardware-visible state-changing events produced by the driver.  Status
polling is a read and produces no event. -/
inductive HwEv where
  | eccKeygen
  | eccSigning
  | eccVerifying
  | eccZeroize
  | pka (c : PkaCmd)
  | kvWrPkeyCtrl
  | kvRdSeedCtrl
  | kvRdPkeyCtrl
  | regWrite (r : Nat)
deriving DecidableEq

/-- Register ids for `regWrite` events. -/
def seedReg : Nat := 0
def nonceReg : Nat := 1
def ivReg : Nat := 2
def msgReg : Nat := 3
def privkeyInReg : Nat := 4

/-- Outcome of running a driver function: normal return, error return, or a
Rust panic (`todo!()` / `unwrap` failure). -/
inductive ExecResult (α : Type) where
  | ok (a : α)
  | err (e : CaliptraError)
  | panicked
deriving DecidableEq

/-- A run of a driver function: its outcome paired with the trace of
hardware-visible state-changing events it produced, in order. -/
abbrev M (α : Type) := ExecResult α × List HwEv

/-- Modelled from the spec: the PKA's elliptic-curve operations
(scalar-point-multiply and point-add) as deterministic functions — the fixed
semantics of the accelerator hardware, which is outside the sources. -/
structure PkaSem where
  scalarMul : Nat → Pt → Pt
  pointAdd : Pt → Pt → Pt

/-- Modelled from the spec: the per-call outcomes of the fallible hardware
steps (key-vault transfers, TRNG) and the values produced by the ECC engine
(generated private key, ephemeral scalar `k`, blinding factors `lambda`).
`none` means the step succeeded; value fields are big-endian limb lists as
read from the corresponding registers. -/
structure HwRand where
  kvBeginToArr : Option CaliptraError
  kvBeginToKv : Option CaliptraError
  kvSeedRead : Option KvAccessErr
  kvEndArr : Option CaliptraError
  kvEndKv : Option KvAccessErr
  kvPrivkeyRead : Option KvAccessErr
  trngKeygen : Option CaliptraError
  trngSign : Option CaliptraError
  keygenPrivkeyOut : List Nat
  lambdaKeygen : List Nat
  signK : List Nat
  lambdaSign : List Nat

/-- Curve prime modulus P, little-endian limbs (source constant `ECC_P`). -/
def ECC_P : List Nat :=
  [0xffffffff, 0x00000000, 0x00000000, 0xffffffff, 0xfffffffe, 0xffffffff,
   0xffffffff, 0xffffffff, 0xffffffff, 0xffffffff, 0xffffffff, 0xffffffff]

/-- Curve order N, little-endian limbs (source constant `ECC_N`). -/
def ECC_N : List Nat :=
  [0xccc52973, 0xecec196a, 0x48b0a77a, 0x581a0db2, 0xf4372ddf, 0xc7634d81,
   0xffffffff, 0xffffffff, 0xffffffff, 0xffffffff, 0xffffffff, 0xffffffff]

/-- Base point x-coordinate, little-endian limbs (source constant `ECC_GX`). -/
def ECC_GX : List Nat :=
  [0x72760ab7, 0x3a545e38, 0xbf55296c, 0x5502f25d, 0x82542a38, 0x59f741e0,
   0x8ba79b98, 0x6e1d3b62, 0xf320ad74, 0x8eb1c71e, 0xbe8b0537, 0xaa87ca22]

/-- Base point y-coordinate, little-endian limbs (source constant `ECC_GY`). -/
def ECC_GY : List Nat :=
  [0x90ea0e5f, 0x7a431d7c, 0x1d7e819d, 0x0a60b1ce, 0xb5f0b8c0, 0xe9da3113,
   0x289a147c, 0xf8f41dbd, 0x9292dc29, 0x5d9e98bf, 0x96262c6f, 0x3617de4a]

/-- The prime modulus P as a natural number. -/
def pVal : Nat := limbsLEtoNat ECC_P

/-- The curve order N as a natural number. -/
def nVal : Nat := limbsLEtoNat ECC_N

/-- Base point x-coordinate as a natural number. -/
def gxVal : Nat := limbsLEtoNat ECC_GX

/-- Base point y-coordinate as a natural number. -/
def gyVal : Nat := limbsLEtoNat ECC_GY

/-- The `SECP384_ORDER_MIN1`: N − 1 in big-endian limbs, the constant inside
`scalar_range_check` (source lines 302-305). -/
def SECP384_ORDER_MIN1 : List Nat :=
  [0xffffffff, 0xffffffff, 0xffffffff, 0xffffffff, 0xffffffff, 0xffffffff,
   0xc7634d81, 0xf4372ddf, 0x581a0db2, 0x48b0a77a, 0xecec196a, 0xccc52972]

/-- The limb-wise comparison loop of `scalar_range_check` (source lines
308-314): most-significant limb first; a strictly greater limb returns
`false` immediately, a strictly smaller limb breaks out with success, equal
limbs continue. -/
def cmpLoop : List Nat → List Nat → Bool
  | s :: ss, w :: ws =>
    if w < s then false
    else if s < w then true
    else cmpLoop ss ws
  | _, _ => true

/-- The `Ecc384::scalar_range_check` (source lines 300-325): `scalar ≤ N − 1`
by the short-circuiting limb comparison, and `scalar ≠ 0`. -/
def scalar_range_check (s : Scalar) : Bool :=
  cmpLoop s SECP384_ORDER_MIN1 && s.any (fun x => x != 0)

/-- The `Ecc384PubKey::to_der` (source lines 132-134): tag byte `0x04` followed
by the big-endian bytes of x and then y (`array_concat3`). -/
def to_der (pk : PubKey) : List Nat :=
  0x04 :: (limbsToBytesBE pk.x ++ limbsToBytesBE pk.y)

/-- Decoder for the uncompressed point encoding (the inverse direction the
spec's round-trip property refers to; the source has no decoder). -/
def pubKeyFromDer (d : List Nat) : PubKey :=
  PubKey.mk (bytesToLimbsBE ((d.drop 1).take 48)) (bytesToLimbsBE ((d.drop 1).drop 48))

/-- The all-zero digest signed by the pairwise consistency check
(source line 526). -/
def zeroScalar : Scalar := List.replicate 12 0

/-- The private-key routing step at the top of `key_pair` (source lines
354-368): the usage-capability check happens before `begin_copy_to_kv` is
called, so a usage violation produces no hardware event; both `begin_copy`
variants write the key-vault private-key write-control register. -/
def beginStep (rand : HwRand) (dest : PrivKeyOut) : Option CaliptraError × List HwEv :=
  match dest with
  | .arr => (rand.kvBeginToArr, [.kvWrPkeyCtrl])
  | .key k =>
    if k.usage.ecc_private_key = false then
      (some .DRIVER_ECC384_KEYGEN_BAD_USAGE, [])
    else
      (rand.kvBeginToKv, [.kvWrPkeyCtrl])

/-- The seed staging step of `key_pair` (source lines 371-377). -/
def seedStep (rand : HwRand) (seed : Seed) : Option CaliptraError × List HwEv :=
  match seed with
  | .arr _ => (none, [.regWrite seedReg])
  | .key _ => (rand.kvSeedRead.map KvAccessErr.into_read_seed_err, [.kvRdSeedCtrl])

/-- The private-key retrieval step of `key_pair` (source lines 393-399):
`end_copy_to_arr` reads the `privkey_out` register, `end_copy_to_kv` polls
the write status; neither writes hardware state. -/
def endCopyStep (rand : HwRand) (dest : PrivKeyOut) : Option CaliptraError × List HwEv :=
  match dest with
  | .arr => (rand.kvEndArr, [])
  | .key _ => (rand.kvEndKv.map KvAccessErr.into_write_priv_key_err, [])

/-- The private-key staging step at the top of `sign_internal` (source lines
591-597): `copy_from_arr` writes the `privkey_in` register, `copy_from_kv`
writes the key-vault private-key read-control register and can fail. -/
def privCopyStep (rand : HwRand) (priv : PrivKeyIn) : Option CaliptraError × List HwEv :=
  match priv with
  | .arr _ => (none, [.regWrite privkeyInReg])
  | .key _ => (rand.kvPrivkeyRead.map KvAccessErr.into_read_priv_key_err, [.kvRdPkeyCtrl])

/-- The public-key computation of `key_pair` (source lines 412-523): blind
the base point by lambda (two ModMults), scalar-multiply by the private key,
then normalize to affine via ModInv and two ModMults. -/
def keygenPub (sem : PkaSem) (rand : HwRand) : PubKey :=
  let lam := limbsBEtoNat rand.lambdaKeygen
  let pv := limbsBEtoNat rand.keygenPrivkeyOut
  let gx := mulmod pVal gxVal lam
  let gy := mulmod pVal gyVal lam
  let q := sem.scalarMul pv (Pt.mk gx gy lam)
  let zi := modInv pVal q.z
  PubKey.mk (natToLimbsBE (mulmod pVal q.x zi)) (natToLimbsBE (mulmod pVal q.y zi))

/-- The PKA events of `keygenPub`, in trigger order. -/
def kgPubEvs : List HwEv :=
  [.pka .modMult, .pka .modMult, .pka .scalarMult, .pka .modInv, .pka .modMult, .pka .modMult]

/-- The `Ecc384::sign_internal` (source lines 575-793).  The ephemeral `k` and
the blinding `lambda` are read from the ECC engine after the `signing`
command; `r` is the affine x-coordinate of `k·G` over P; `s` is
`k⁻¹·(h + r·d) mod N`.  A vault-resident private key reaches the
unimplemented branch at line 720 and panics. -/
def sign_internal (sem : PkaSem) (rand : HwRand) (priv : PrivKeyIn) (data : Scalar) : M Sig :=
  match privCopyStep rand priv with
  | (some e, t) => (.err e, t)
  | (none, t1) =>
    let t2 := t1 ++ [.regWrite msgReg]
    match rand.trngSign with
    | some e => (.err e, t2)
    | none =>
      let k := limbsBEtoNat rand.signK
      let lam := limbsBEtoNat rand.lambdaSign
      let gx := mulmod pVal gxVal lam
      let gy := mulmod pVal gyVal lam
      let rp := sem.scalarMul k (Pt.mk gx gy lam)
      let zi := modInv pVal rp.z
      let rV := mulmod pVal rp.x zi
      let t3 := t2 ++ [.regWrite ivReg, .eccSigning, .pka .modMult, .pka .modMult,
                       .pka .scalarMult, .pka .modInv, .pka .modMult]
      match priv with
      | .key _ => (.panicked, t3)
      | .arr a =>
        let dV := limbsBEtoNat a
        let s1 := addmod nVal (mulmod nVal rV dV) (limbsBEtoNat data)
        let sV := mulmod nVal (modInv nVal k) s1
        (.ok (Sig.mk (natToLimbsBE rV) (natToLimbsBE sV)),
         t3 ++ [.pka .modMult, .pka .modAdd, .pka .modInv, .pka .modMult, .eccZeroize])

/-- The `Ecc384::verify_r` (source lines 876-1070).  Signature components outside
[1, N−1] are rejected before any hardware command.  Otherwise: `s⁻¹ mod N`,
`u1 = h·s⁻¹`, `u2 = r·s⁻¹`; the `u1·G` term is computed only when `u1 ≠ 0`
(the source tests whether any limb of `u1` is nonzero); the combined
projective point is normalized to its affine x-coordinate. -/
def verify_r (sem : PkaSem) (pk : PubKey) (digest : Scalar) (sig : Sig) : M Scalar :=
  if !(scalar_range_check sig.r) || !(scalar_range_check sig.s) then
    (.err .DRIVER_ECC384_SCALAR_RANGE_CHECK_FAILED, [])
  else
    let sInv := modInv nVal (limbsBEtoNat sig.s)
    let u1 := mulmod nVal (limbsBEtoNat digest) sInv
    let u2 := mulmod nVal (limbsBEtoNat sig.r) sInv
    let u2q := sem.scalarMul u2 (Pt.mk (limbsBEtoNat pk.x) (limbsBEtoNat pk.y) 1)
    if u1 = 0 then
      let rr := u2q
      let rx := mulmod pVal rr.x (modInv pVal rr.z)
      (.ok (natToLimbsBE rx),
       [.eccVerifying, .pka .modInv, .pka .modMult, .pka .modMult, .pka .scalarMult,
        .pka .modInv, .pka .modMult, .eccZeroize])
    else
      let u1g := sem.scalarMul u1 (Pt.mk gxVal gyVal 1)
      let rr := sem.pointAdd u1g u2q
      let rx := mulmod pVal rr.x (modInv pVal rr.z)
      (.ok (natToLimbsBE rx),
       [.eccVerifying, .pka .modInv, .pka .modMult, .pka .modMult, .pka .scalarMult,
        .pka .scalarMult, .pka .pointAdd, .pka .modInv, .pka .modMult, .eccZeroize])

/-- The `Ecc384::sign` (source lines 810-823): run `sign_internal`, then
recompute the verification R with `verify_r` against the supplied public key
and assert, with the fault-resistant equality check (modelled from the spec
as surfacing a mismatch as an error), that it equals the signature's `r`. -/
def sign (sem : PkaSem) (rand : HwRand) (priv : PrivKeyIn) (pk : PubKey) (data : Scalar) : M Sig :=
  match sign_internal sem rand priv data with
  | (.ok sg, t1) =>
    (match verify_r sem pk data sg with
     | (.ok rv, t2) =>
       if rv = sg.r then (.ok sg, t1 ++ t2) else (.err .cfiAssertEqFailed, t1 ++ t2)
     | (.err e, t2) => (.err e, t1 ++ t2)
     | (.panicked, t2) => (.panicked, t1 ++ t2))
  | (.err e, t1) => (.err e, t1)
  | (.panicked, t1) => (.panicked, t1)

/-- The `Ecc384::verify` (source lines 841-860): compare the recovered R from
`verify_r` with `signature.r`; equal gives `Success` (re-asserted by the
fault-resistant check, which succeeds on equal inputs), unequal gives
`SigVerifyFailed`.  The local recovered-R buffer is cleared, which is not a
hardware event. -/
def verify (sem : PkaSem) (pk : PubKey) (digest : Scalar) (sig : Sig) : M Ecc384Result :=
  match verify_r sem pk digest sig with
  | (.ok rv, t) =>
    if rv = sig.r then (.ok .Success, t) else (.ok .SigVerifyFailed, t)
  | (.err e, t) => (.err e, t)
  | (.panicked, t) => (.panicked, t)

/-- The `Ecc384::key_pair` (source lines 340-535): route the private-key output
(immediate usage-policy failure for an incapable vault slot), stage seed,
nonce and a fresh IV, trigger hardware key generation, retrieve the private
key, compute the public key through the PKA, run the pairwise consistency
check (sign an all-zero digest with the new key pair and verify it against
the just-computed public key, inside `sign`), zeroize and return.  A
vault-resident destination reaches the unimplemented read-back branch at
line 407 and panics. -/
def key_pair (sem : PkaSem) (rand : HwRand) (seed : Seed) (nonce : Scalar)
    (dest : PrivKeyOut) : M PubKey :=
  match beginStep rand dest with
  | (some e, t) => (.err e, t)
  | (none, t1) =>
    match seedStep rand seed with
    | (some e, t) => (.err e, t1 ++ t)
    | (none, t2) =>
      let t3 := t1 ++ t2 ++ [.regWrite nonceReg]
      match rand.trngKeygen with
      | some e => (.err e, t3)
      | none =>
        let t4 := t3 ++ [.regWrite ivReg, .eccKeygen]
        match endCopyStep rand dest with
        | (some e, t) => (.err e, t4 ++ t)
        | (none, t5) =>
          match dest with
          | .key _ => (.panicked, t4 ++ t5)
          | .arr =>
            let pub := keygenPub sem rand
            let t6 := t4 ++ t5 ++ kgPubEvs
            match sign sem rand (.arr rand.keygenPrivkeyOut) pub zeroScalar with
            | (.ok _, st) => (.ok pub, t6 ++ st ++ [.eccZeroize])
            | (.err e, st) => (.err e, t6 ++ st)
            | (.panicked, st) => (.panicked, t6 ++ st)

/-- A concrete PKA semantics used to instantiate theorems with hypotheses:
both curve operations return the projective point (1, 1, 1). -/
def sem0 : PkaSem :=
  PkaSem.mk (fun _ _ => Pt.mk 1 1 1) (fun _ _ => Pt.mk 1 1 1)

/-- A concrete hardware environment where every fallible step succeeds and
every hardware-produced value is 1. -/
def rand0 : HwRand :=
  HwRand.mk none none none none none none none none
    (natToLimbsBE 1) (natToLimbsBE 1) (natToLimbsBE 1) (natToLimbsBE 1)

/-- The `rand0` with an all-zero generated private key: the pairwise consistency
signature then has `s = 0` and the check fails. -/
def randBad : HwRand :=
  HwRand.mk none none none none none none none none
    zeroScalar (natToLimbsBE 1) (natToLimbsBE 1) (natToLimbsBE 1)

/-- Concrete seed input for witnesses. -/
def seed0 : Seed := Seed.arr zeroScalar

/-- Concrete nonce input for witnesses. -/
def nonce0 : Scalar := zeroScalar

/-- Concrete digest input for witnesses. -/
def d0 : Scalar := natToLimbsBE 1

/-- The public key `key_pair sem0 rand0` produces. -/
def pub0 : PubKey := PubKey.mk (natToLimbsBE 1) (natToLimbsBE 1)

/-- The signature `sign sem0 rand0` produces on digest `d0`. -/
def sig0 : Sig := Sig.mk (natToLimbsBE 1) (natToLimbsBE 2)

/-- A signature whose `r` component is zero (out of range). -/
def sigR0 : Sig := Sig.mk zeroScalar (natToLimbsBE 1)

/-- A vault destination slot carrying the ECC-private-key capability. -/
def keyOk : KeyWriteArgs := KeyWriteArgs.mk 0 (KeyUsage.mk true)

/-- A vault destination slot lacking the ECC-private-key capability. -/
def keyBad : KeyWriteArgs := KeyWriteArgs.mk 0 (KeyUsage.mk false)

/-- A vault source slot for `sign` witnesses. -/
def kra0 : KeyReadArgs := KeyReadArgs.mk 0

/-- A PKA semantics whose point-add disagrees with its scalar-multiply, so
that the verification R recomputed inside `sign` differs from the produced
signature's `r` (used to exercise the fault-check mismatch path). -/
def semMis : PkaSem :=
  PkaSem.mk (fun _ _ => Pt.mk 1 1 1) (fun _ _ => Pt.mk 2 1 1)

/-- The seed-staging step of `key_pair` succeeds: trivially for an explicit
seed, and when the key-vault seed read succeeds for a vault seed. -/
def seedStepOk (rand : HwRand) (seed : Seed) : Prop :=
  match seed with
  | .arr _ => True
  | .key _ => rand.kvSeedRead = none

end Ecc384

namespace Ecc384

/-- A limb list with all limbs below 2^32 denotes a value below
2^(32·length). -/
theorem limbsBEtoNat_lt (l : List Nat) (h : ∀ x ∈ l, x < 2 ^ 32) :
    limbsBEtoNat l < 2 ^ (32 * l.length) := by
  induction l with
  | nil => simp [limbsBEtoNat]
  | cons x xs ih =>
    have hx : x < 2 ^ 32 := h x (by simp)
    have hxs : limbsBEtoNat xs < 2 ^ (32 * xs.length) :=
      ih (fun y hy => h y (by simp [hy]))
    simp only [limbsBEtoNat, List.length_cons]
    have hpow : 2 ^ (32 * (xs.length + 1)) = 2 ^ 32 * 2 ^ (32 * xs.length) := by
      rw [Nat.mul_add, Nat.mul_one, Nat.pow_add, Nat.mul_comm]
    rw [hpow]
    calc x * 2 ^ (32 * xs.length) + limbsBEtoNat xs
        < x * 2 ^ (32 * xs.length) + 2 ^ (32 * xs.length) := by omega
      _ = (x + 1) * 2 ^ (32 * xs.length) := by ring
      _ ≤ 2 ^ 32 * 2 ^ (32 * xs.length) := Nat.mul_le_mul_right _ hx

/-- The short-circuiting most-significant-limb-first comparison loop decides
`value ≤ value` for equal-length limb lists with 32-bit limbs. -/
theorem cmpLoop_iff (s : List Nat) : ∀ w : List Nat, s.length = w.length →
    (∀ x ∈ s, x < 2 ^ 32) → (∀ x ∈ w, x < 2 ^ 32) →
    (cmpLoop s w = true ↔ limbsBEtoNat s ≤ limbsBEtoNat w) := by
  induction s with
  | nil =>
    intro w hlen _ _
    have : w = [] := by cases w with
      | nil => rfl
      | cons b bs => simp at hlen
    subst this
    simp [cmpLoop, limbsBEtoNat]
  | cons a as ih =>
    intro w hlen hs hw
    cases w with
    | nil => simp at hlen
    | cons b bs =>
      have hlen2 : as.length = bs.length := by simpa using hlen
      have ha : a < 2 ^ 32 := hs a (by simp)
      have hb : b < 2 ^ 32 := hw b (by simp)
      have hasb : limbsBEtoNat as < 2 ^ (32 * as.length) :=
        limbsBEtoNat_lt as (fun y hy => hs y (by simp [hy]))
      have hbsb : limbsBEtoNat bs < 2 ^ (32 * bs.length) :=
        limbsBEtoNat_lt bs (fun y hy => hw y (by simp [hy]))
      rw [hlen2] at hasb
      simp only [cmpLoop, limbsBEtoNat, hlen2]
      rcases lt_trichotomy a b with h1 | h1 | h1
      · rw [if_neg (by omega), if_pos h1]
        simp only [true_iff]
        refine le_of_lt ?_
        calc a * 2 ^ (32 * bs.length) + limbsBEtoNat as
            < (a + 1) * 2 ^ (32 * bs.length) := by
              have := Nat.pos_pow_of_pos (32 * bs.length) (show 0 < 2 by omega)
              nlinarith
          _ ≤ b * 2 ^ (32 * bs.length) := Nat.mul_le_mul_right _ (by omega)
          _ ≤ b * 2 ^ (32 * bs.length) + limbsBEtoNat bs := Nat.le_add_right _ _
      · subst h1
        rw [if_neg (lt_irrefl a), if_neg (lt_irrefl a)]
        rw [ih bs hlen2 (fun y hy => hs y (by simp [hy])) (fun y hy => hw y (by simp [hy]))]
        omega
      · rw [if_pos h1]
        simp only [Bool.false_eq_true, false_iff, not_le]
        calc b * 2 ^ (32 * bs.length) + limbsBEtoNat bs
            < (b + 1) * 2 ^ (32 * bs.length) := by
              have := Nat.pos_pow_of_pos (32 * bs.length) (show 0 < 2 by omega)
              nlinarith
          _ ≤ a * 2 ^ (32 * bs.length) := Nat.mul_le_mul_right _ (by omega)
          _ ≤ a * 2 ^ (32 * bs.length) + limbsBEtoNat as := Nat.le_add_right _ _

/-- Some limb is nonzero exactly when the denoted value is nonzero. -/
theorem any_ne_zero_iff (l : List Nat) :
    (l.any (fun x => x != 0)) = true ↔ limbsBEtoNat l ≠ 0 := by
  induction l with
  | nil => simp [limbsBEtoNat]
  | cons x xs ih =>
    have hpow : 0 < 2 ^ (32 * xs.length) := Nat.pos_pow_of_pos _ (by omega)
    simp only [List.any_cons, Bool.or_eq_true, bne_iff_ne, ne_eq, ih, limbsBEtoNat]
    constructor
    · rintro (hx | hxs) h0
      · exact hx (by nlinarith [Nat.eq_zero_of_add_eq_zero_right h0])
      · exact hxs (by omega)
    · intro h
      by_contra hc
      push_neg at hc
      exact h (by simp [hc.1, hc.2])

/-- The `scalar_range_check` decides membership of the denoted value in
[1, N−1], for a well-formed 12-limb scalar. -/
theorem range_check_iff (s : Scalar) (hlen : s.length = 12)
    (hb : ∀ x ∈ s, x < 2 ^ 32) :
    scalar_range_check s = true ↔
      1 ≤ limbsBEtoNat s ∧ limbsBEtoNat s ≤ nVal - 1 := by
  have h1 : cmpLoop s SECP384_ORDER_MIN1 = true ↔
      limbsBEtoNat s ≤ limbsBEtoNat SECP384_ORDER_MIN1 :=
    cmpLoop_iff s SECP384_ORDER_MIN1 (by rw [hlen]; rfl) hb (by decide)
  have h2 : limbsBEtoNat SECP384_ORDER_MIN1 = nVal - 1 := by decide
  have h3 := any_ne_zero_iff s
  simp only [scalar_range_check, Bool.and_eq_true, h1, h2, h3]
  omega

end Ecc384

namespace Ecc384

/-- The byte string of a limb list is four bytes per limb. -/
theorem limbsToBytesBE_length (l : List Nat) :
    (limbsToBytesBE l).length = 4 * l.length := by
  induction l with
  | nil => rfl
  | cons w ws ih =>
    simp only [limbsToBytesBE, wordToBytesBE, List.length_append, List.length_cons,
      List.length_nil, ih]
    omega

/-- Recomposing the four big-endian bytes of a 32-bit word gives the word
back. -/
theorem wordToBytesBE_recompose (w : Nat) (h : w < 2 ^ 32) :
    (((w / 2 ^ 24 % 256) * 256 + w / 2 ^ 16 % 256) * 256 + w / 2 ^ 8 % 256) * 256 + w % 256
      = w := by
  have h24 : (2 : Nat) ^ 24 = 16777216 := by norm_num
  have h16 : (2 : Nat) ^ 16 = 65536 := by norm_num
  have h8 : (2 : Nat) ^ 8 = 256 := by norm_num
  have h32 : (2 : Nat) ^ 32 = 4294967296 := by norm_num
  rw [h24, h16, h8] at *
  rw [h32] at h
  omega

/-- Byte serialization of 32-bit limbs is lossless. -/
theorem bytesToLimbsBE_roundtrip (l : List Nat) (h : ∀ x ∈ l, x < 2 ^ 32) :
    bytesToLimbsBE (limbsToBytesBE l) = l := by
  induction l with
  | nil => rfl
  | cons w ws ih =>
    have hw : w < 2 ^ 32 := h w (by simp)
    have hrest : bytesToLimbsBE (limbsToBytesBE ws) = ws :=
      ih (fun y hy => h y (by simp [hy]))
    show bytesToLimbsBE ((w / 2 ^ 24 % 256) :: (w / 2 ^ 16 % 256) :: (w / 2 ^ 8 % 256)
        :: (w % 256) :: limbsToBytesBE ws) = w :: ws
    rw [bytesToLimbsBE, hrest, wordToBytesBE_recompose w hw]

end Ecc384


namespace Ecc384

/-- If `sign` returns a signature, then `sign_internal` produced exactly that
signature and the recomputed verification R equals its `r` component. -/
theorem sign_fst_ok (sem : PkaSem) (rand : HwRand) (priv : PrivKeyIn) (pk : PubKey)
    (data : Scalar) (sg : Sig) (h : (sign sem rand priv pk data).fst = .ok sg) :
    (sign_internal sem rand priv data).fst = .ok sg
    ∧ (verify_r sem pk data sg).fst = .ok sg.r := by
  unfold sign at h
  rcases hsi : sign_internal sem rand priv data with ⟨ir, t1⟩
  rw [hsi] at h
  cases ir with
  | ok sg2 =>
    dsimp only at h
    rcases hv : verify_r sem pk data sg2 with ⟨vr, t2⟩
    rw [hv] at h
    cases vr with
    | ok rv =>
      dsimp only at h
      by_cases hrv : rv = sg2.r
      · rw [if_pos hrv] at h
        dsimp only at h
        cases h
        exact ⟨rfl, by rw [hv, hrv]⟩
      · rw [if_neg hrv] at h
        simp at h
    | err e => simp at h
    | panicked => simp at h
  | err e => simp at h
  | panicked => simp at h

/-- If the recomputed verification R equals the signature's `r`, `verify`
returns `Success`. -/
theorem verify_fst_success (sem : PkaSem) (pk : PubKey) (digest : Scalar) (sig : Sig)
    (h : (verify_r sem pk digest sig).fst = .ok sig.r) :
    (verify sem pk digest sig).fst = .ok .Success := by
  unfold verify
  rcases hv : verify_r sem pk digest sig with ⟨vr, t⟩
  rw [hv] at h
  dsimp only at h
  subst h
  simp

/-- A successful `verify_r` run has issued the zeroize command. -/
theorem verify_r_ok_zeroize (sem : PkaSem) (pk : PubKey) (digest : Scalar) (sig : Sig)
    (rv : Scalar) (h : (verify_r sem pk digest sig).fst = .ok rv) :
    .eccZeroize ∈ (verify_r sem pk digest sig).snd := by
  by_cases hc : (!(scalar_range_check sig.r) || !(scalar_range_check sig.s)) = true
  · unfold verify_r at h
    rw [if_pos hc] at h
    simp at h
  · unfold verify_r
    rw [if_neg hc]
    dsimp only
    by_cases hu : mulmod nVal (limbsBEtoNat digest) (modInv nVal (limbsBEtoNat sig.s)) = 0
    · rw [if_pos hu]; simp
    · rw [if_neg hu]; simp

/-- A successful `sign_internal` run has issued the zeroize command. -/
theorem sign_internal_ok_zeroize (sem : PkaSem) (rand : HwRand) (priv : PrivKeyIn)
    (data : Scalar) (sg : Sig) (h : (sign_internal sem rand priv data).fst = .ok sg) :
    .eccZeroize ∈ (sign_internal sem rand priv data).snd := by
  unfold sign_internal at h ⊢
  rcases hp : privCopyStep rand priv with ⟨o, t1⟩
  rw [hp] at h
  cases o with
  | some e => simp at h
  | none =>
    dsimp only at h ⊢
    cases htr : rand.trngSign with
    | some e => rw [htr] at h; simp at h
    | none =>
      rw [htr] at h
      dsimp only at h ⊢
      cases priv with
      | key k => simp at h
      | arr a => simp [List.mem_append]

/-- A successful `sign` run has issued the zeroize command. -/
theorem sign_ok_zeroize (sem : PkaSem) (rand : HwRand) (priv : PrivKeyIn) (pk : PubKey)
    (data : Scalar) (sg : Sig) (h : (sign sem rand priv pk data).fst = .ok sg) :
    .eccZeroize ∈ (sign sem rand priv pk data).snd := by
  unfold sign at h ⊢
  rcases hp : sign_internal sem rand priv data with ⟨ir, t1⟩
  rw [hp] at h
  cases ir with
  | ok sg2 =>
    have hz := sign_internal_ok_zeroize sem rand priv data sg2 (by rw [hp])
    rw [hp] at hz
    dsimp only at h hz ⊢
    rcases hv : verify_r sem pk data sg2 with ⟨vr, t2⟩
    cases vr with
    | ok rv =>
      dsimp only
      by_cases hrv : rv = sg2.r
      · rw [if_pos hrv]
        simp only [List.mem_append]
        exact Or.inl hz
      · rw [if_neg hrv]
        simp only [List.mem_append]
        exact Or.inl hz
    | err e =>
      dsimp only
      simp only [List.mem_append]
      exact Or.inl hz
    | panicked =>
      dsimp only
      simp only [List.mem_append]
      exact Or.inl hz
  | err e => simp at h
  | panicked => simp at h

/-- A successful `verify` run has issued the zeroize command. -/
theorem verify_ok_zeroize (sem : PkaSem) (pk : PubKey) (digest : Scalar) (sig : Sig)
    (res : Ecc384Result) (h : (verify sem pk digest sig).fst = .ok res) :
    .eccZeroize ∈ (verify sem pk digest sig).snd := by
  unfold verify at h ⊢
  rcases hv : verify_r sem pk digest sig with ⟨vr, t⟩
  rw [hv] at h
  cases vr with
  | ok rv =>
    have hz := verify_r_ok_zeroize sem pk digest sig rv (by rw [hv])
    rw [hv] at hz
    dsimp only at h hz ⊢
    by_cases hrv : rv = sig.r
    · rw [if_pos hrv]; exact hz
    · rw [if_neg hrv]; exact hz
  | err e => simp at h
  | panicked => simp at h

/-- A successful `key_pair` run has issued the zeroize command. -/
theorem key_pair_ok_zeroize (sem : PkaSem) (rand : HwRand) (seed : Seed) (nonce : Scalar)
    (dest : PrivKeyOut) (pub : PubKey)
    (h : (key_pair sem rand seed nonce dest).fst = .ok pub) :
    .eccZeroize ∈ (key_pair sem rand seed nonce dest).snd := by
  unfold key_pair at h ⊢
  rcases hb : beginStep rand dest with ⟨o1, t1⟩
  rw [hb] at h
  cases o1 with
  | some e => simp at h
  | none =>
    dsimp only at h ⊢
    rcases hsd : seedStep rand seed with ⟨o2, t2⟩
    rw [hsd] at h
    cases o2 with
    | some e => simp at h
    | none =>
      dsimp only at h ⊢
      cases htr : rand.trngKeygen with
      | some e => rw [htr] at h; simp at h
      | none =>
        rw [htr] at h
        dsimp only at h ⊢
        rcases hec : endCopyStep rand dest with ⟨o3, t3⟩
        rw [hec] at h
        cases o3 with
        | some e => simp at h
        | none =>
          dsimp only at h ⊢
          cases dest with
          | key k => simp at h
          | arr =>
            dsimp only at h ⊢
            rcases hs : sign sem rand (.arr rand.keygenPrivkeyOut) (keygenPub sem rand)
                zeroScalar with ⟨sr, st⟩
            rw [hs] at h
            cases sr with
            | ok sg => simp [List.mem_append]
            | err e => simp at h
            | panicked => simp at h

end Ecc384

namespace Ecc384

/-- C1: for every key pair produced by a successful `Ecc384::key_pair` call
(array destination, so the private key lands in the caller's buffer, whose
contents are the hardware's `privkey_out` value) and every 384-bit digest
`d`, if `Ecc384::sign` on that private key, public key, and `d` returns a
signature, then `Ecc384::verify` with that public key, `d`, and the returned
signature returns `Ecc384Result::Success`.  This holds because `sign` only
returns after checking that `verify_r` recomputes the signature's `r`, and
`verify_r` is a deterministic function of the accelerator semantics. -/
theorem sign_then_verify_success (sem : PkaSem) (rand rand2 : HwRand) (seed : Seed)
    (nonce : Scalar) (d : Scalar) (pub : PubKey) (sig : Sig)
    (hkp : (key_pair sem rand seed nonce .arr).fst = .ok pub)
    (hsg : (sign sem rand2 (.arr rand.keygenPrivkeyOut) pub d).fst = .ok sig) :
    (verify sem pub d sig).fst = .ok .Success :=
  verify_fst_success sem pub d sig
    (sign_fst_ok sem rand2 (.arr rand.keygenPrivkeyOut) pub d sig hsg).2

/-- Witness for C1 at a concrete accelerator semantics and hardware
environment where key generation and signing succeed. -/
theorem sign_then_verify_success_witness :
    (verify sem0 pub0 d0 sig0).fst = .ok .Success :=
  sign_then_verify_success sem0 rand0 rand0 seed0 nonce0 d0 pub0 sig0
    (by decide) (by decide)

/-- C2: whenever `Ecc384::verify` returns `Ok res`, `res` is `Success`
exactly when the R value recovered by `verify_r` equals the signature's `r`
component, and `SigVerifyFailed` exactly when they differ. -/
theorem verify_result_iff_recovered_r (sem : PkaSem) (pk : PubKey) (digest : Scalar)
    (sig : Sig) (res : Ecc384Result) (h : (verify sem pk digest sig).fst = .ok res) :
    (res = .Success ↔ (verify_r sem pk digest sig).fst = .ok sig.r)
    ∧ (res = .SigVerifyFailed ↔ (verify_r sem pk digest sig).fst ≠ .ok sig.r) := by
  unfold verify at h
  rcases hv : verify_r sem pk digest sig with ⟨vr, t⟩
  rw [hv] at h
  cases vr with
  | ok rv =>
    dsimp only at h ⊢
    by_cases hrv : rv = sig.r
    · rw [if_pos hrv] at h
      dsimp only at h
      cases h
      simp [hrv]
    · rw [if_neg hrv] at h
      dsimp only at h
      cases h
      simp [hrv]
  | err e => simp at h
  | panicked => simp at h

/-- Witness for C2: at the concrete inputs the result is `Success` and the
recovered R equals the signature's `r`. -/
theorem verify_result_iff_recovered_r_witness :
    (verify_r sem0 pub0 d0 sig0).fst = .ok sig0.r :=
  ((verify_result_iff_recovered_r sem0 pub0 d0 sig0 .Success (by decide)).1).mp rfl

/-- C3: for a 12-limb big-endian scalar with 32-bit limbs,
`Ecc384::scalar_range_check` returns true exactly when the scalar's value
lies in [1, N−1], where N is the P-384 curve order; the comparison is the
most-significant-limb-first short-circuiting loop embodied in `cmpLoop`. -/
theorem scalar_range_check_correct (s : Scalar) (hlen : s.length = 12)
    (hb : ∀ x ∈ s, x < 2 ^ 32) :
    scalar_range_check s = true ↔
      1 ≤ limbsBEtoNat s ∧ limbsBEtoNat s ≤ nVal - 1 :=
  range_check_iff s hlen hb

/-- Witness for C3 at the concrete scalar 5. -/
theorem scalar_range_check_correct_witness :
    scalar_range_check (natToLimbsBE 5) = true :=
  (scalar_range_check_correct (natToLimbsBE 5) (by decide) (by decide)).mpr (by decide)

/-- C4: if the signature's `r` or `s` value lies outside [1, N−1], then
`verify_r` (and therefore `verify`) returns
`DRIVER_ECC384_SCALAR_RANGE_CHECK_FAILED` with an empty hardware-event
trace: no ECC-engine command, no PKA command, no register write. -/
theorem verify_r_range_fail_closed (sem : PkaSem) (pk : PubKey) (digest : Scalar)
    (sig : Sig) (hr12 : sig.r.length = 12) (hrb : ∀ x ∈ sig.r, x < 2 ^ 32)
    (hs12 : sig.s.length = 12) (hsb : ∀ x ∈ sig.s, x < 2 ^ 32)
    (hout : ¬(1 ≤ limbsBEtoNat sig.r ∧ limbsBEtoNat sig.r ≤ nVal - 1)
          ∨ ¬(1 ≤ limbsBEtoNat sig.s ∧ limbsBEtoNat sig.s ≤ nVal - 1)) :
    verify_r sem pk digest sig = (.err .DRIVER_ECC384_SCALAR_RANGE_CHECK_FAILED, [])
    ∧ verify sem pk digest sig = (.err .DRIVER_ECC384_SCALAR_RANGE_CHECK_FAILED, []) := by
  have hcond : (!(scalar_range_check sig.r) || !(scalar_range_check sig.s)) = true := by
    rcases hout with h | h
    · have hfalse : scalar_range_check sig.r = false := by
        cases hcheck : scalar_range_check sig.r with
        | false => rfl
        | true => exact absurd ((range_check_iff sig.r hr12 hrb).mp hcheck) h
      simp [hfalse]
    · have hfalse : scalar_range_check sig.s = false := by
        cases hcheck : scalar_range_check sig.s with
        | false => rfl
        | true => exact absurd ((range_check_iff sig.s hs12 hsb).mp hcheck) h
      simp [hfalse]
  have h1 : verify_r sem pk digest sig
      = (.err .DRIVER_ECC384_SCALAR_RANGE_CHECK_FAILED, []) := by
    unfold verify_r
    rw [if_pos hcond]
  refine ⟨h1, ?_⟩
  unfold verify
  rw [h1]

/-- Witness for C4 at a signature with `r = 0`. -/
theorem verify_r_range_fail_closed_witness :
    verify_r sem0 pub0 d0 sigR0 = (.err .DRIVER_ECC384_SCALAR_RANGE_CHECK_FAILED, [])
    ∧ verify sem0 pub0 d0 sigR0 = (.err .DRIVER_ECC384_SCALAR_RANGE_CHECK_FAILED, []) :=
  verify_r_range_fail_closed sem0 pub0 d0 sigR0
    (by decide) (by decide) (by decide) (by decide) (by decide)

/-- C5: `key_pair` with a key-vault destination whose usage capabilities do
not include the ECC-private-key bit returns
`DRIVER_ECC384_KEYGEN_BAD_USAGE` with an empty hardware-event trace: no
hardware-visible state change at all, in particular no write to the
key-vault private-key write-control or status registers (the preceding
ready-wait only reads the status register). -/
theorem key_pair_bad_usage_no_hw (sem : PkaSem) (rand : HwRand) (seed : Seed)
    (nonce : Scalar) (k : KeyWriteArgs) (h : k.usage.ecc_private_key = false) :
    key_pair sem rand seed nonce (.key k)
      = (.err .DRIVER_ECC384_KEYGEN_BAD_USAGE, []) := by
  unfold key_pair beginStep
  dsimp only
  rw [if_pos h]

/-- Witness for C5 at a concrete usage-incapable slot. -/
theorem key_pair_bad_usage_no_hw_witness :
    key_pair sem0 rand0 seed0 nonce0 (.key keyBad)
      = (.err .DRIVER_ECC384_KEYGEN_BAD_USAGE, []) :=
  key_pair_bad_usage_no_hw sem0 rand0 seed0 nonce0 keyBad rfl

end Ecc384

namespace Ecc384

/-- C6 counterexample: the claim "every fallible path performs zeroization
before propagating its error" is false — the scalar-range-check failure path
of `verify_r` returns its error with no zeroize command in its trace (the
trace is empty). -/
theorem zeroize_missing_on_error_path :
    (verify_r sem0 pub0 d0 sigR0).fst = .err .DRIVER_ECC384_SCALAR_RANGE_CHECK_FAILED
    ∧ .eccZeroize ∉ (verify_r sem0 pub0 d0 sigR0).snd := by decide

/-- C6 (amended): every successful exit of `key_pair`, `sign`, `verify`, and
`verify_r` triggers zeroization of the hardware state before returning;
error exits may propagate without zeroization (in particular the
scalar-range-check failure path of `verify_r`, which also touches no
hardware). -/
theorem zeroize_on_success_paths (sem : PkaSem) (rand : HwRand) (pk : PubKey)
    (digest : Scalar) (sig : Sig) (priv : PrivKeyIn) (seed : Seed) (nonce : Scalar)
    (dest : PrivKeyOut) :
    (∀ rv, (verify_r sem pk digest sig).fst = .ok rv →
        .eccZeroize ∈ (verify_r sem pk digest sig).snd)
    ∧ (∀ res, (verify sem pk digest sig).fst = .ok res →
        .eccZeroize ∈ (verify sem pk digest sig).snd)
    ∧ (∀ sg, (sign sem rand priv pk digest).fst = .ok sg →
        .eccZeroize ∈ (sign sem rand priv pk digest).snd)
    ∧ (∀ pub, (key_pair sem rand seed nonce dest).fst = .ok pub →
        .eccZeroize ∈ (key_pair sem rand seed nonce dest).snd) :=
  ⟨fun rv h => verify_r_ok_zeroize sem pk digest sig rv h,
   fun res h => verify_ok_zeroize sem pk digest sig res h,
   fun sg h => sign_ok_zeroize sem rand priv pk digest sg h,
   fun pub h => key_pair_ok_zeroize sem rand seed nonce dest pub h⟩

/-- Witness for the amended C6: a successful concrete `verify` run contains
the zeroize command in its trace. -/
theorem zeroize_on_success_paths_witness :
    .eccZeroize ∈ (verify sem0 pub0 d0 sig0).snd :=
  (zeroize_on_success_paths sem0 rand0 pub0 d0 sig0 (.arr rand0.keygenPrivkeyOut)
    seed0 nonce0 .arr).2.1 .Success (by decide)

/-- C7: `sign` returns a signature only if the verification R independently
recomputed by `verify_r` against the supplied public key equals the
signature's `r`; a mismatch between the recomputed R and the signature's `r`
is surfaced to the caller as an error (the fault-resistant equality check,
modelled from the spec), never silently fixed. -/
theorem sign_self_check (sem : PkaSem) (rand : HwRand) (priv : PrivKeyIn) (pk : PubKey)
    (d : Scalar) :
    (∀ sg, (sign sem rand priv pk d).fst = .ok sg →
        (verify_r sem pk d sg).fst = .ok sg.r)
    ∧ (∀ sg rv, (sign_internal sem rand priv d).fst = .ok sg →
        (verify_r sem pk d sg).fst = .ok rv → rv ≠ sg.r →
        (sign sem rand priv pk d).fst = .err .cfiAssertEqFailed) := by
  constructor
  · intro sg h
    exact (sign_fst_ok sem rand priv pk d sg h).2
  · intro sg rv hsi hv hne
    unfold sign
    rcases hp : sign_internal sem rand priv d with ⟨ir, t1⟩
    rw [hp] at hsi
    cases ir with
    | ok sg2 =>
      dsimp only at hsi ⊢
      injection hsi with hsg
      subst hsg
      rcases hv2 : verify_r sem pk d sg2 with ⟨vr, t2⟩
      rw [hv2] at hv
      dsimp only at hv ⊢
      subst hv
      dsimp only
      rw [if_neg hne]
    | err e => exact absurd hsi (by simp)
    | panicked => exact absurd hsi (by simp)

/-- Witness for C7: with a point-add semantics that disagrees with the
scalar-multiply, the recomputed R differs from the signature's `r` and
`sign` surfaces the fault-check failure. -/
theorem sign_self_check_witness :
    (sign semMis rand0 (.arr rand0.keygenPrivkeyOut) pub0 d0).fst
      = .err .cfiAssertEqFailed :=
  (sign_self_check semMis rand0 (.arr rand0.keygenPrivkeyOut) pub0 d0).2
    sig0 (natToLimbsBE 2) (by decide) (by decide) (by decide)

/-- C8: `key_pair` (array destination) runs the pairwise consistency check:
it signs the all-zero digest with the generated private key and verifies the
result against the just-computed public key (inside `sign`).  If `key_pair`
succeeds, the returned public key is the computed one and the embedded check
succeeded; if the check fails with an error, `key_pair` returns that error
and no public key is returned. -/
theorem key_pair_pairwise_consistency (sem : PkaSem) (rand : HwRand) (seed : Seed)
    (nonce : Scalar) :
    (∀ pub, (key_pair sem rand seed nonce .arr).fst = .ok pub →
        pub = keygenPub sem rand
        ∧ ∃ sg, (sign sem rand (.arr rand.keygenPrivkeyOut) pub zeroScalar).fst
            = .ok sg)
    ∧ (∀ e, rand.kvBeginToArr = none → seedStepOk rand seed →
        rand.trngKeygen = none → rand.kvEndArr = none →
        (sign sem rand (.arr rand.keygenPrivkeyOut) (keygenPub sem rand)
            zeroScalar).fst = .err e →
        (key_pair sem rand seed nonce .arr).fst = .err e) := by
  constructor
  · intro pub h
    unfold key_pair at h
    rcases hb : beginStep rand .arr with ⟨o1, t1⟩
    rw [hb] at h
    cases o1 with
    | some e => simp at h
    | none =>
      dsimp only at h
      rcases hsd : seedStep rand seed with ⟨o2, t2⟩
      rw [hsd] at h
      cases o2 with
      | some e => simp at h
      | none =>
        dsimp only at h
        cases htr : rand.trngKeygen with
        | some e => rw [htr] at h; simp at h
        | none =>
          rw [htr] at h
          dsimp only at h
          rcases hec : endCopyStep rand .arr with ⟨o3, t3⟩
          rw [hec] at h
          cases o3 with
          | some e => simp at h
          | none =>
            dsimp only at h
            rcases hs : sign sem rand (.arr rand.keygenPrivkeyOut) (keygenPub sem rand)
                zeroScalar with ⟨sr, st⟩
            rw [hs] at h
            cases sr with
            | ok sg =>
              dsimp only at h
              cases h
              exact ⟨rfl, sg, by rw [hs]⟩
            | err e => simp at h
            | panicked => simp at h
  · intro e hbg hsd htr hek hsig
    unfold key_pair
    have hb : beginStep rand .arr = (none, [.kvWrPkeyCtrl]) := by
      unfold beginStep
      rw [hbg]
    rw [hb]
    dsimp only
    obtain ⟨t2, hss⟩ : ∃ t2, seedStep rand seed = (none, t2) := by
      cases seed with
      | arr v => exact ⟨[.regWrite seedReg], rfl⟩
      | key kr =>
        refine ⟨[.kvRdSeedCtrl], ?_⟩
        unfold seedStep
        rw [show rand.kvSeedRead = none from hsd]
        rfl
    rw [hss]
    dsimp only
    rw [htr]
    dsimp only
    have hec : endCopyStep rand .arr = (none, []) := by
      unfold endCopyStep
      rw [hek]
    rw [hec]
    dsimp only
    rcases hs : sign sem rand (.arr rand.keygenPrivkeyOut) (keygenPub sem rand)
        zeroScalar with ⟨sr, st⟩
    rw [hs] at hsig
    dsimp only at hsig
    subst hsig
    rfl

/-- Witness for C8: with an all-zero generated private key the pairwise
consistency signature has `s = 0`, the embedded check fails the range check,
and `key_pair` propagates exactly that error. -/
theorem key_pair_pairwise_consistency_witness :
    (key_pair sem0 randBad seed0 nonce0 .arr).fst
      = .err .DRIVER_ECC384_SCALAR_RANGE_CHECK_FAILED :=
  (key_pair_pairwise_consistency sem0 randBad seed0 nonce0).2
    .DRIVER_ECC384_SCALAR_RANGE_CHECK_FAILED rfl trivial rfl rfl (by decide)

end Ecc384

namespace Ecc384

/-- C9: for every well-formed public key (12 limbs of 32 bits per
coordinate), `Ecc384PubKey::to_der` is exactly 97 bytes, starts with the tag
0x04, is followed by the 48 big-endian bytes of x and then of y, decodes
back to the original (x, y) pair, and is injective on well-formed keys. -/
theorem to_der_roundtrip (pk : PubKey) (hx : pk.x.length = 12) (hy : pk.y.length = 12)
    (hbx : ∀ v ∈ pk.x, v < 2 ^ 32) (hby : ∀ v ∈ pk.y, v < 2 ^ 32) :
    (to_der pk).length = 97
    ∧ (to_der pk).head? = some 0x04
    ∧ pubKeyFromDer (to_der pk) = pk
    ∧ ∀ q : PubKey, q.x.length = 12 → (∀ v ∈ q.x, v < 2 ^ 32) →
        (∀ v ∈ q.y, v < 2 ^ 32) → to_der q = to_der pk → q = pk := by
  have hround : ∀ q : PubKey, q.x.length = 12 → (∀ v ∈ q.x, v < 2 ^ 32) →
      (∀ v ∈ q.y, v < 2 ^ 32) → pubKeyFromDer (to_der q) = q := by
    intro q hqx hbqx hbqy
    have hlq : (limbsToBytesBE q.x).length = 48 := by
      rw [limbsToBytesBE_length, hqx]
    unfold to_der pubKeyFromDer
    simp only [List.drop_succ_cons, List.drop_zero]
    rw [List.take_left' hlq, List.drop_left' hlq]
    rw [bytesToLimbsBE_roundtrip q.x hbqx, bytesToLimbsBE_roundtrip q.y hbqy]
  refine ⟨?_, rfl, hround pk hx hbx hby, ?_⟩
  · unfold to_der
    simp only [List.length_cons, List.length_append, limbsToBytesBE_length, hx, hy]
  · intro q hqx hbqx hbqy heq
    have h1 := hround q hqx hbqx hbqy
    have h2 := hround pk hx hbx hby
    rw [heq, h2] at h1
    exact h1.symm

/-- Witness for C9 at the concrete public key `pub0`. -/
theorem to_der_roundtrip_witness :
    (to_der pub0).length = 97 ∧ pubKeyFromDer (to_der pub0) = pub0 :=
  ⟨(to_der_roundtrip pub0 (by decide) (by decide) (by decide) (by decide)).1,
   (to_der_roundtrip pub0 (by decide) (by decide) (by decide) (by decide)).2.2.1⟩

/-- C10: with a usage-capable key-vault destination, `key_pair` never
returns a public key — every run either fails in an earlier hardware step or
reaches the unimplemented vault read-back (`todo!()` at source line 407) and
panics; when the key-vault and TRNG steps all succeed it panics.  Likewise
`sign_internal` with a vault-resident private key never returns a signature
and panics (source line 720) when the vault read and TRNG succeed. -/
theorem vault_resident_priv_key_panics (sem : PkaSem) (rand : HwRand) (seed : Seed)
    (nonce : Scalar) (k : KeyWriteArgs) (kr : KeyReadArgs) (d : Scalar)
    (husage : k.usage.ecc_private_key = true) :
    ((∀ pub, (key_pair sem rand seed nonce (.key k)).fst ≠ .ok pub)
     ∧ (rand.kvBeginToKv = none → seedStepOk rand seed → rand.trngKeygen = none →
        rand.kvEndKv = none → (key_pair sem rand seed nonce (.key k)).fst = .panicked))
    ∧ ((∀ sg, (sign_internal sem rand (.key kr) d).fst ≠ .ok sg)
       ∧ (rand.kvPrivkeyRead = none → rand.trngSign = none →
          (sign_internal sem rand (.key kr) d).fst = .panicked)) := by
  refine ⟨⟨?_, ?_⟩, ?_, ?_⟩
  · intro pub h
    unfold key_pair at h
    rcases hb : beginStep rand (.key k) with ⟨o1, t1⟩
    rw [hb] at h
    cases o1 with
    | some e => simp at h
    | none =>
      dsimp only at h
      rcases hsd : seedStep rand seed with ⟨o2, t2⟩
      rw [hsd] at h
      cases o2 with
      | some e => simp at h
      | none =>
        dsimp only at h
        cases htr : rand.trngKeygen with
        | some e => rw [htr] at h; simp at h
        | none =>
          rw [htr] at h
          dsimp only at h
          rcases hec : endCopyStep rand (.key k) with ⟨o3, t3⟩
          rw [hec] at h
          cases o3 with
          | some e => simp at h
          | none => dsimp only at h; simp at h
  · intro hbg hsd htr hek
    unfold key_pair
    have hb : beginStep rand (.key k) = (none, [.kvWrPkeyCtrl]) := by
      unfold beginStep
      dsimp only
      rw [if_neg (by simp [husage]), hbg]
    rw [hb]
    dsimp only
    obtain ⟨t2, hss⟩ : ∃ t2, seedStep rand seed = (none, t2) := by
      cases seed with
      | arr v => exact ⟨[.regWrite seedReg], rfl⟩
      | key kra =>
        refine ⟨[.kvRdSeedCtrl], ?_⟩
        unfold seedStep
        rw [show rand.kvSeedRead = none from hsd]
        rfl
    rw [hss]
    dsimp only
    rw [htr]
    dsimp only
    have hec : endCopyStep rand (.key k) = (none, []) := by
      unfold endCopyStep
      rw [hek]
      rfl
    rw [hec]
  · intro sg h
    unfold sign_internal at h
    rcases hp : privCopyStep rand (.key kr) with ⟨o, t1⟩
    rw [hp] at h
    cases o with
    | some e => simp at h
    | none =>
      dsimp only at h
      cases htr : rand.trngSign with
      | some e => rw [htr] at h; simp at h
      | none =>
        rw [htr] at h
        simp at h
  · intro hkv htr
    unfold sign_internal
    have hp : privCopyStep rand (.key kr) = (none, [.kvRdPkeyCtrl]) := by
      unfold privCopyStep
      rw [hkv]
      rfl
    rw [hp]
    dsimp only
    rw [htr]

/-- Witness for C10: with all hardware steps succeeding, `key_pair` to a
usage-capable vault slot and `sign_internal` from a vault slot both panic. -/
theorem vault_resident_priv_key_panics_witness :
    (key_pair sem0 rand0 seed0 nonce0 (.key keyOk)).fst = .panicked
    ∧ (sign_internal sem0 rand0 (.key kra0) d0).fst = .panicked :=
  ⟨(vault_resident_priv_key_panics sem0 rand0 seed0 nonce0 keyOk kra0 d0 rfl).1.2
      rfl trivial rfl rfl,
   (vault_resident_priv_key_panics sem0 rand0 seed0 nonce0 keyOk kra0 d0 rfl).2.2
      rfl rfl⟩

end Ecc384
